import Mathlib

/-!
Shallow embedding of the hash-table engine of the repository
`analise_hash` (files `src/TabelaAberta.cpp`, `include/TabelaAberta.hpp`,
`src/TabelaEncadeada.cpp`, `include/TabelaEncadeada.hpp`).

Machine integers are modelled as mathematical `Int`/`Nat` (no overflow is
relevant to the verified properties), the C++ `double` ratios are modelled
as exact rationals `ℚ`, `std::vector` as `List`, the `unique_ptr` chains of
the chained table as `List Int`, and `throw`/`std::optional` as
`Except`/`Option`.  The two hash functions are dispatched in the C++ code by
a `TipoHash` argument; here each table operation receives the initial index
(`indiceInicial`, the value of `calcularHashDivisao`/`calcularHashMultiplicacao`
at the key) so that claims quantified over "either hash kind" become claims
quantified over every initial index below the capacity.  The division hash
is embedded concretely; the multiplication hash is floating-point code whose
exact value no claim depends on, and every index it produces is below the
capacity, so it is covered by that quantification.
-/

/-- Cell states of the open-addressing table (`Celula::Estado`). -/
inductive Estado where
  | VAZIO
  | OCUPADO
  | REMOVIDO
deriving DecidableEq, Repr

/-- A cell of the open-addressing table (`struct Celula`). -/
structure Celula where
  valor : Int
  estado : Estado
deriving DecidableEq, Repr

/-- Default constructor `Celula()` : an empty cell with zeroed value. -/
def Celula.nova : Celula := { valor := 0, estado := Estado.VAZIO }

/-- `Celula::marcarRemovido` : lazy deletion, the value is zeroed. -/
def Celula.marcarRemovido (_c : Celula) : Celula :=
  { valor := 0, estado := Estado.REMOVIDO }

/-- `Celula::disponivelParaInsercao` : VAZIO or REMOVIDO cells accept insertions. -/
def Celula.disponivelParaInsercao (c : Celula) : Prop :=
  c.estado = Estado.VAZIO ∨ c.estado = Estado.REMOVIDO

instance (c : Celula) : Decidable c.disponivelParaInsercao :=
  inferInstanceAs (Decidable (_ ∨ _))

/-- The open-addressing table (`class TabelaAberta`). -/
structure TabelaAberta where
  tabela : List Celula
  tamanho : Nat
  numElementos : Nat
  numRemovidos : Nat
deriving DecidableEq, Repr

/-- The constructor `TabelaAberta(tam)` after its zero-size check has passed:
all cells start VAZIO and both counters start at 0. -/
def TabelaAberta.nova (tam : Nat) : TabelaAberta :=
  { tabela := List.replicate tam Celula.nova
    tamanho := tam
    numElementos := 0
    numRemovidos := 0 }

/-- `tabela[indice]` ; out-of-range reads never happen in the modelled code
paths, the default is the empty cell. -/
def TabelaAberta.celula (t : TabelaAberta) (indice : Nat) : Celula :=
  t.tabela.getD indice Celula.nova

/-- The loop body of `TabelaAberta::sondagemLinear`; `fuel` is the number of
iterations the `tentativas < tamanho` guard still allows. -/
def sondagemLinearAux (t : TabelaAberta) (valor : Int) (paraInsercao : Bool) :
    Nat → Nat → Nat
  | _, 0 => t.tamanho
  | indice, fuel + 1 =>
    let celula := t.celula indice
    if paraInsercao then
      if celula.disponivelParaInsercao then indice
      else if celula.estado = Estado.OCUPADO ∧ celula.valor = valor then indice
      else sondagemLinearAux t valor paraInsercao ((indice + 1) % t.tamanho) fuel
    else
      if celula.estado = Estado.VAZIO then t.tamanho
      else if celula.estado = Estado.OCUPADO ∧ celula.valor = valor then indice
      else sondagemLinearAux t valor paraInsercao ((indice + 1) % t.tamanho) fuel

/-- `TabelaAberta::sondagemLinear` : linear probing, at most `tamanho`
iterations; returns `tamanho` when no suitable position was found. -/
def TabelaAberta.sondagemLinear (t : TabelaAberta) (indiceInicial : Nat)
    (valor : Int) (paraInsercao : Bool) : Nat :=
  sondagemLinearAux t valor paraInsercao indiceInicial t.tamanho

/-- `TabelaAberta::calcularHashDivisao` : `abs(chave) % tamanho`. -/
def TabelaAberta.calcularHashDivisao (t : TabelaAberta) (chave : Int) : Nat :=
  chave.natAbs % t.tamanho

/-- `MAX_FATOR_CARGA` (0.7). -/
def MAX_FATOR_CARGA : ℚ := 7 / 10

/-- `LIMITE_REHASH_REMOVIDOS` (0.5). -/
def LIMITE_REHASH_REMOVIDOS : ℚ := 1 / 2

/-- `TabelaAberta::fatorCarga` : active elements over capacity. -/
def TabelaAberta.fatorCarga (t : TabelaAberta) : ℚ :=
  (t.numElementos : ℚ) / (t.tamanho : ℚ)

/-- `TabelaAberta::fatorOcupacao` : active plus removed over capacity. -/
def TabelaAberta.fatorOcupacao (t : TabelaAberta) : ℚ :=
  ((t.numElementos : ℚ) + (t.numRemovidos : ℚ)) / (t.tamanho : ℚ)

/-- `TabelaAberta::precisaRehash` : either threshold exceeded. -/
def TabelaAberta.precisaRehash (t : TabelaAberta) : Prop :=
  t.fatorCarga > MAX_FATOR_CARGA ∨ t.fatorOcupacao > LIMITE_REHASH_REMOVIDOS

/-- The rational threshold comparisons are equivalent to integer
cross-multiplications; this lets the kernel evaluate `precisaRehash`. -/
theorem precisaRehash_iff (t : TabelaAberta) :
    t.precisaRehash ↔
      0 < t.tamanho ∧ (7 * t.tamanho < t.numElementos * 10 ∨
        1 * t.tamanho < (t.numElementos + t.numRemovidos) * 2) := by
  unfold TabelaAberta.precisaRehash TabelaAberta.fatorCarga TabelaAberta.fatorOcupacao
    MAX_FATOR_CARGA LIMITE_REHASH_REMOVIDOS
  rcases Nat.eq_zero_or_pos t.tamanho with h0 | hpos
  · rw [h0]
    norm_num
  · have hq : (0 : ℚ) < (t.tamanho : ℚ) := by exact_mod_cast hpos
    rw [gt_iff_lt, gt_iff_lt, div_lt_div_iff₀ (by norm_num) hq, div_lt_div_iff₀ (by norm_num) hq]
    constructor
    · rintro (h | h)
      · exact ⟨hpos, Or.inl (by exact_mod_cast h)⟩
      · exact ⟨hpos, Or.inr (by exact_mod_cast h)⟩
    · rintro ⟨-, h | h⟩
      · exact Or.inl (by exact_mod_cast h)
      · exact Or.inr (by exact_mod_cast h)

instance (t : TabelaAberta) : Decidable t.precisaRehash :=
  decidable_of_iff _ (precisaRehash_iff t).symm

/-- `TabelaAberta::inserir`.  A `throw` is modelled as `Except.error` carrying
the message together with the state of the table at the moment of the throw
(both throws happen before any mutation, so that state is the input table). -/
def TabelaAberta.inserir (t : TabelaAberta) (valor : Int) (indiceInicial : Nat) :
    Except (String × TabelaAberta) TabelaAberta :=
  if t.precisaRehash then
    Except.error ("Fator de carga muito alto - rehash necessário", t)
  else
    let indice := t.sondagemLinear indiceInicial valor true
    if indice ≥ t.tamanho then
      Except.error ("Tabela cheia - não foi possível inserir", t)
    else
      let celula := t.celula indice
      if celula.estado = Estado.OCUPADO ∧ celula.valor = valor then
        Except.ok t
      else
        let t1 := if celula.estado = Estado.REMOVIDO then
            { t with numRemovidos := t.numRemovidos - 1 } else t
        Except.ok { t1 with
          tabela := t1.tabela.set indice { valor := valor, estado := Estado.OCUPADO }
          numElementos := t1.numElementos + 1 }

/-- `TabelaAberta::buscar` : found iff the search probe returns a valid index. -/
def TabelaAberta.buscar (t : TabelaAberta) (valor : Int) (indiceInicial : Nat) : Bool :=
  decide (t.sondagemLinear indiceInicial valor false < t.tamanho)

/-- `TabelaAberta::remover` : lazy deletion; returns the removed value (or
`none`) together with the resulting table. -/
def TabelaAberta.remover (t : TabelaAberta) (valor : Int) (indiceInicial : Nat) :
    Option Int × TabelaAberta :=
  let indice := t.sondagemLinear indiceInicial valor false
  if indice ≥ t.tamanho then (none, t)
  else
    let celula := t.celula indice
    if celula.estado = Estado.OCUPADO ∧ celula.valor = valor then
      (some celula.valor,
       { t with
         tabela := t.tabela.set indice celula.marcarRemovido
         numElementos := t.numElementos - 1
         numRemovidos := t.numRemovidos + 1 })
    else (none, t)

/-- `TabelaAberta::limpar` : every cell back to VAZIO, counters zeroed. -/
def TabelaAberta.limpar (t : TabelaAberta) : TabelaAberta :=
  { t with
    tabela := t.tabela.map (fun _ => Celula.nova)
    numElementos := 0
    numRemovidos := 0 }

/-- Caller-side view of `inserir` : a thrown exception leaves the table in
the state it had at the throw. -/
def TabelaAberta.inserirE (t : TabelaAberta) (valor : Int) (indiceInicial : Nat) :
    TabelaAberta :=
  match t.inserir valor indiceInicial with
  | Except.ok t' => t'
  | Except.error (_, t') => t'

/-- `TabelaAberta::EstatisticasSondagem`. -/
structure EstatisticasSondagem where
  totalSondagens : Nat
  sondagemMedia : ℚ
  maxSondagens : Nat
  clustersDetectados : Nat
  maiorCluster : Nat
deriving DecidableEq, Repr

/-- The inner `while (indice != i)` loop of `analisarSondagem` that counts how
many probe steps separate the division-hash home index from the actual
position; it breaks once `sondagens` exceeds the capacity.  `fuel` bounds the
iterations; `tamanho + 1` iterations always suffice because `sondagens`
starts at 1 and grows by 1 each iteration up to the break at `tamanho + 1`. -/
def contarSondagens (tamanho alvo : Nat) : Nat → Nat → Nat → Nat
  | _, sondagens, 0 => sondagens
  | indice, sondagens, fuel + 1 =>
    if indice = alvo then sondagens
    else
      let s := sondagens + 1
      if s > tamanho then s
      else contarSondagens tamanho alvo ((indice + 1) % tamanho) s fuel

/-- The cluster-scan loop of `analisarSondagem` over the cell array; the
accumulator is `(emCluster, tamanhoClusterAtual, clustersDetectados,
maiorCluster)` exactly as in the C++ locals. -/
def clusterScan : List Celula → Bool → Nat → Nat → Nat → Bool × Nat × Nat × Nat
  | [], emCluster, tamanhoAtual, clusters, maior => (emCluster, tamanhoAtual, clusters, maior)
  | c :: resto, emCluster, tamanhoAtual, clusters, maior =>
    if c.estado ≠ Estado.VAZIO then
      clusterScan resto true (if emCluster then tamanhoAtual + 1 else 1) clusters maior
    else
      if emCluster then
        if tamanhoAtual > 1 then
          clusterScan resto false 0 (clusters + 1) (max maior tamanhoAtual)
        else
          clusterScan resto false 0 clusters maior
      else
        clusterScan resto false tamanhoAtual clusters maior

/-- The `while (inicio < tamanho && tabela[inicio] != VAZIO)` scan of the
wrap-around special case: number of leading non-VAZIO cells. -/
def contagemInicialNaoVazia : List Celula → Nat
  | [] => 0
  | c :: resto =>
    if c.estado ≠ Estado.VAZIO then contagemInicialNaoVazia resto + 1 else 0

/-- `TabelaAberta::analisarSondagem`. -/
def TabelaAberta.analisarSondagem (t : TabelaAberta) : EstatisticasSondagem :=
  if t.numElementos = 0 then
    { totalSondagens := 0, sondagemMedia := 0, maxSondagens := 0
      clustersDetectados := 0, maiorCluster := 0 }
  else
    let probe := t.tabela.enum.foldl
      (fun (acc : Nat × Nat × Nat) par =>
        if par.2.estado = Estado.OCUPADO then
          let sondagens :=
            contarSondagens t.tamanho par.1 (t.calcularHashDivisao par.2.valor) 1 (t.tamanho + 1)
          (acc.1 + sondagens, max acc.2.1 sondagens, acc.2.2 + 1)
        else acc)
      (0, 0, 0)
    let totalSondagens := probe.1
    let maxSondagens := probe.2.1
    let operacoesRealizadas := probe.2.2
    let sondagemMedia : ℚ :=
      if operacoesRealizadas > 0 then (totalSondagens : ℚ) / (operacoesRealizadas : ℚ) else 0
    let scan := clusterScan t.tabela false 0 0 0
    let emCluster := scan.1
    let tamanhoClusterAtual := scan.2.1
    let clusters := scan.2.2.1
    let maior := scan.2.2.2
    let fim : Nat × Nat :=
      if emCluster ∧ t.tamanho > 0 ∧ (t.celula 0).estado ≠ Estado.VAZIO then
        let tamanhoCombinado := tamanhoClusterAtual + contagemInicialNaoVazia t.tabela
        if tamanhoCombinado > 1 then (clusters + 1, max maior tamanhoCombinado)
        else (clusters, maior)
      else if emCluster ∧ tamanhoClusterAtual > 1 then
        (clusters + 1, max maior tamanhoClusterAtual)
      else (clusters, maior)
    { totalSondagens := totalSondagens
      sondagemMedia := sondagemMedia
      maxSondagens := maxSondagens
      clustersDetectados := fim.1
      maiorCluster := fim.2 }

/-- The chained table (`class TabelaEncadeada`); each bucket's `unique_ptr`
chain is a `List Int` ordered from head to tail. -/
structure TabelaEncadeada where
  tabela : List (List Int)
  tamanho : Nat
  numElementos : Nat
deriving DecidableEq, Repr

/-- The constructor `TabelaEncadeada(tam)` after its zero-size check: all
buckets empty. -/
def TabelaEncadeada.nova (tam : Nat) : TabelaEncadeada :=
  { tabela := List.replicate tam [], tamanho := tam, numElementos := 0 }

/-- Bucket at a position (`tabela[indice]`). -/
def TabelaEncadeada.lista (t : TabelaEncadeada) (indice : Nat) : List Int :=
  t.tabela.getD indice []

/-- The chain walk of `TabelaEncadeada::buscar`. -/
def buscaLista : List Int → Int → Bool
  | [], _ => false
  | v :: resto, valor => if v = valor then true else buscaLista resto valor

/-- `TabelaEncadeada::calcularHashDivisao` : `abs(chave) % tamanho`. -/
def TabelaEncadeada.calcularHashDivisao (t : TabelaEncadeada) (chave : Int) : Nat :=
  chave.natAbs % t.tamanho

/-- `TabelaEncadeada::buscar` (with the index already computed from the key). -/
def TabelaEncadeada.buscar (t : TabelaEncadeada) (valor : Int) (indice : Nat) : Bool :=
  buscaLista (t.lista indice) valor

/-- `TabelaEncadeada::inserir` : duplicate check by `buscar`, then head
insertion. -/
def TabelaEncadeada.inserir (t : TabelaEncadeada) (valor : Int) (indice : Nat) :
    TabelaEncadeada :=
  if t.buscar valor indice then t
  else
    { t with
      tabela := t.tabela.set indice (valor :: t.lista indice)
      numElementos := t.numElementos + 1 }

/-- The chain surgery of `TabelaEncadeada::remover` : drop the first node
holding the value, report whether one was dropped. -/
def removeLista : List Int → Int → Bool × List Int
  | [], _ => (false, [])
  | v :: resto, valor =>
    if v = valor then (true, resto)
    else
      let r := removeLista resto valor
      (r.1, v :: r.2)

/-- `TabelaEncadeada::remover`. -/
def TabelaEncadeada.remover (t : TabelaEncadeada) (valor : Int) (indice : Nat) :
    Bool × TabelaEncadeada :=
  let r := removeLista (t.lista indice) valor
  if r.1 then
    (true, { t with tabela := t.tabela.set indice r.2
                    numElementos := t.numElementos - 1 })
  else (false, t)

/-- `TabelaEncadeada::limpar`. -/
def TabelaEncadeada.limpar (t : TabelaEncadeada) : TabelaEncadeada :=
  { t with tabela := t.tabela.map (fun _ => []), numElementos := 0 }

/-- `TabelaEncadeada::EstatisticasDistribuicao`. -/
structure EstatisticasDistribuicao where
  posicoesMenosUtilizada : Nat
  posicoesMaisUtilizada : Nat
  comprimentoMedio : ℚ
  totalColisoes : Nat
deriving DecidableEq, Repr

/-- The per-bucket accumulator locals of `obterEstatisticas`. -/
structure AcumuladorEstatisticas where
  vazias : Nat
  maisUtilizada : Nat
  colisoes : Nat
  naoVazias : Nat
  somaComprimentos : Nat
deriving DecidableEq, Repr

/-- One iteration of the bucket loop of `obterEstatisticas`. -/
def passoEstatisticas (acc : AcumuladorEstatisticas) (lista : List Int) :
    AcumuladorEstatisticas :=
  let comprimento := lista.length
  if comprimento = 0 then { acc with vazias := acc.vazias + 1 }
  else
    { acc with
      naoVazias := acc.naoVazias + 1
      somaComprimentos := acc.somaComprimentos + comprimento
      maisUtilizada := max acc.maisUtilizada comprimento
      colisoes := acc.colisoes + (if comprimento > 1 then comprimento - 1 else 0) }

/-- `TabelaEncadeada::obterEstatisticas`. -/
def TabelaEncadeada.obterEstatisticas (t : TabelaEncadeada) : EstatisticasDistribuicao :=
  let acc := t.tabela.foldl passoEstatisticas
    { vazias := 0, maisUtilizada := 0, colisoes := 0, naoVazias := 0, somaComprimentos := 0 }
  { posicoesMenosUtilizada := acc.vazias
    posicoesMaisUtilizada := acc.maisUtilizada
    comprimentoMedio :=
      if acc.naoVazias > 0 then (acc.somaComprimentos : ℚ) / (acc.naoVazias : ℚ) else 0
    totalColisoes := acc.colisoes }

/-- Number of cells inspected by the `sondagemLinear` loop: one per loop
iteration, mirroring `sondagemLinearAux` step for step. -/
def sondagemLinearPassos (t : TabelaAberta) (valor : Int) (paraInsercao : Bool) :
    Nat → Nat → Nat
  | _, 0 => 0
  | indice, fuel + 1 =>
    let celula := t.celula indice
    if paraInsercao then
      if celula.disponivelParaInsercao then 1
      else if celula.estado = Estado.OCUPADO ∧ celula.valor = valor then 1
      else 1 + sondagemLinearPassos t valor paraInsercao ((indice + 1) % t.tamanho) fuel
    else
      if celula.estado = Estado.VAZIO then 1
      else if celula.estado = Estado.OCUPADO ∧ celula.valor = valor then 1
      else 1 + sondagemLinearPassos t valor paraInsercao ((indice + 1) % t.tamanho) fuel

/-- States of the open table reachable from a freshly constructed table by
`inserir` (either outcome: a throw leaves the state unchanged), `remover`
and `limpar`, with each call's initial index produced by some hash function,
hence below the capacity. -/
inductive ReachOpen : TabelaAberta → Prop where
  | nova : ∀ m : Nat, 0 < m → ReachOpen (TabelaAberta.nova m)
  | inserir : ∀ (t : TabelaAberta) (v : Int) (i : Nat) (t' : TabelaAberta),
      ReachOpen t → i < t.tamanho → t.inserir v i = Except.ok t' → ReachOpen t'
  | remover : ∀ (t : TabelaAberta) (v : Int) (i : Nat),
      ReachOpen t → i < t.tamanho → ReachOpen (t.remover v i).2
  | limpar : ∀ t : TabelaAberta, ReachOpen t → ReachOpen t.limpar

/-- States of the chained table reachable from a freshly constructed table by
`inserir`, `remover` and `limpar` with in-range initial indices. -/
inductive ReachEnc : TabelaEncadeada → Prop where
  | nova : ∀ m : Nat, 0 < m → ReachEnc (TabelaEncadeada.nova m)
  | inserir : ∀ (t : TabelaEncadeada) (v : Int) (i : Nat),
      ReachEnc t → i < t.tamanho → ReachEnc (t.inserir v i)
  | remover : ∀ (t : TabelaEncadeada) (v : Int) (i : Nat),
      ReachEnc t → i < t.tamanho → ReachEnc (t.remover v i).2
  | limpar : ∀ t : TabelaEncadeada, ReachEnc t → ReachEnc t.limpar

/-- Values of the Occupied cells of a cell array, in order. -/
def valoresLista (l : List Celula) : List Int :=
  (l.filter fun c => decide (c.estado = Estado.OCUPADO)).map Celula.valor

/-- Values held by the Occupied cells, in array order. -/
def valoresOcupados (t : TabelaAberta) : List Int :=
  valoresLista t.tabela

/-- Invariant of the open table along an insert-only run with hash function
`h`, after the keys `ks` have been offered. -/
structure InvOpen (m : Nat) (h : Int → Nat) (ks : List Int) (t : TabelaAberta) : Prop where
  tam : t.tamanho = m
  len : t.tabela.length = m
  semRemovidos : ∀ c ∈ t.tabela, c.estado ≠ Estado.REMOVIDO
  achaTodos : ∀ c ∈ t.tabela, c.estado = Estado.OCUPADO →
    t.buscar c.valor (h c.valor) = true
  inseridos : ∀ c ∈ t.tabela, c.estado = Estado.OCUPADO → c.valor ∈ ks
  contagem : t.numElementos = (valoresOcupados t).length
  semDuplicatas : (valoresOcupados t).Nodup

/-- Invariant of the chained table along an insert-only run. -/
structure InvEnc (m : Nat) (h : Int → Nat) (ks : List Int) (t : TabelaEncadeada) : Prop where
  tam : t.tamanho = m
  len : t.tabela.length = m
  achaTodos : ∀ v ∈ ks, t.buscar v (h v) = true
  conta : t.numElementos ≤ ks.toFinset.card

/-- Folding a key sequence through open-table insertion (exceptions leave the
state unchanged), starting from the freshly constructed table. -/
def insertRunOpen (m : Nat) (h : Int → Nat) (keys : List Int) : TabelaAberta :=
  keys.foldl (fun t v => t.inserirE v (h v)) (TabelaAberta.nova m)

/-- Folding a key sequence through chained-table insertion. -/
def insertRunEnc (m : Nat) (h : Int → Nat) (keys : List Int) : TabelaEncadeada :=
  keys.foldl (fun t v => t.inserir v (h v)) (TabelaEncadeada.nova m)

/-- Open-table insertion with the division hash, as the benchmark driver
calls it. -/
def inserirDiv (t : TabelaAberta) (valor : Int) : TabelaAberta :=
  t.inserirE valor (t.calcularHashDivisao valor)

/-- Open-table removal with the division hash. -/
def removerDiv (t : TabelaAberta) (valor : Int) : TabelaAberta :=
  (t.remover valor (t.calcularHashDivisao valor)).2

/-- Capacity-5 open table after `inserir 2; inserir 7; remover 2; inserir 7`
with the division hash (2 and 7 both hash to index 2). -/
def tabelaDuplicada : TabelaAberta :=
  inserirDiv (removerDiv (inserirDiv (inserirDiv (TabelaAberta.nova 5) 2) 7) 2) 7

/-- Capacity-10 open table after inserting 8, 9, 10, 11 with the division
hash: cells 8, 9, 0, 1 are Occupied, forming one maximal wrapped run of
non-Empty cells of length 4. -/
def tabelaCluster : TabelaAberta :=
  inserirDiv (inserirDiv (inserirDiv (inserirDiv (TabelaAberta.nova 10) 8) 9) 10) 11

/-- Capacity-7 chained table after inserting 10, 17, 24 with the division
hash (all three keys are congruent to 3 mod 7). -/
def tabelaC8 : TabelaEncadeada :=
  [(10 : Int), 17, 24].foldl (fun t v => t.inserir v (t.calcularHashDivisao v))
    (TabelaEncadeada.nova 7)

/-- A capacity-10 open table whose load factor is exactly the high-water mark
`0.7` (the cell array is irrelevant to the threshold check). -/
def tabelaCarga07 : TabelaAberta :=
  { tabela := List.replicate 10 Celula.nova
    tamanho := 10
    numElementos := 7
    numRemovidos := 0 }

/-- The capacity-5 open table holding just the key 3 at its home index 3. -/
def tabelaC5 : TabelaAberta :=
  { tabela := [Celula.nova, Celula.nova, Celula.nova,
               { valor := 3, estado := Estado.OCUPADO }, Celula.nova]
    tamanho := 5
    numElementos := 1
    numRemovidos := 0 }

/-- Claim C1: refuted by execution.  In the reachable state `tabelaDuplicada`
(capacity 5, division hash, operations `inserir 2; inserir 7; remover 2;
inserir 7`, all threshold checks passing) the key 7 is stored in the
Occupied state in two distinct cells, indices 2 and 3: the second
`inserir 7` reuses the tombstone left at index 2 without probing past it for
the copy of 7 already at index 3. -/
theorem claim_C1 :
    (tabelaDuplicada.celula 2).estado = Estado.OCUPADO ∧
    (tabelaDuplicada.celula 2).valor = 7 ∧
    (tabelaDuplicada.celula 3).estado = Estado.OCUPADO ∧
    (tabelaDuplicada.celula 3).valor = 7 := by decide

/-- Claim C4: refuted by execution.  In the reachable state `tabelaDuplicada`
the call `remover 7` succeeds (returns the removed value 7), yet the
immediately following `buscar 7` with the same hash still returns found,
because a second Occupied copy of 7 sits one probe step past the fresh
tombstone. -/
theorem claim_C4 :
    (tabelaDuplicada.remover 7 (tabelaDuplicada.calcularHashDivisao 7)).1 = some 7 ∧
    ((tabelaDuplicada.remover 7 (tabelaDuplicada.calcularHashDivisao 7)).2.buscar 7
      ((tabelaDuplicada.remover 7 (tabelaDuplicada.calcularHashDivisao 7)).2.calcularHashDivisao
        7)) = true := by decide

/-- Claim C7: refuted by execution.  The reachable state `tabelaCluster` has
exactly one maximal contiguous run of non-Empty cells, the wrapped run at
indices 8, 9, 0, 1 of length 4, yet `analisarSondagem` reports
`clustersDetectados = 2`: the scan counts the prefix run at indices 0, 1 once
on its own and then again merged into the wrapped run.  (`maiorCluster = 4`
is the correct length of that single run.) -/
theorem claim_C7 :
    tabelaCluster.tabela =
      [{ valor := 10, estado := Estado.OCUPADO }, { valor := 11, estado := Estado.OCUPADO },
       Celula.nova, Celula.nova, Celula.nova, Celula.nova, Celula.nova, Celula.nova,
       { valor := 8, estado := Estado.OCUPADO }, { valor := 9, estado := Estado.OCUPADO }] ∧
    tabelaCluster.analisarSondagem.clustersDetectados = 2 ∧
    tabelaCluster.analisarSondagem.maiorCluster = 4 := by decide

/-- Claim C8: starting from an empty capacity-7 chained table and inserting
10, 17, 24 with the division hash, bucket 3 holds exactly the chain
`[24, 17, 10]` (head-insertion order), every other bucket is empty, and
`obterEstatisticas` reports 2 collisions. -/
theorem claim_C8 :
    tabelaC8.tabela = [[], [], [], [24, 17, 10], [], [], []] ∧
    tabelaC8.obterEstatisticas.totalColisoes = 2 := by decide

theorem getD_set_mesmo {α : Type} :
    ∀ (l : List α) (j : Nat) (c d : α), j < l.length → (l.set j c).getD j d = c := by
  intro l
  induction l with
  | nil => intro j c d h; simp at h
  | cons x xs ih =>
    intro j c d h
    cases j with
    | zero => rfl
    | succ n =>
      simp only [List.set_cons_succ, List.getD_cons_succ]
      exact ih n c d (by simpa using h)

theorem getD_set_outro {α : Type} :
    ∀ (l : List α) (j k : Nat) (c d : α), k ≠ j → (l.set j c).getD k d = l.getD k d := by
  intro l
  induction l with
  | nil => intro j k c d _; simp
  | cons x xs ih =>
    intro j k c d hkj
    cases j with
    | zero =>
      cases k with
      | zero => exact absurd rfl hkj
      | succ n => rfl
    | succ m =>
      cases k with
      | zero => rfl
      | succ n =>
        simp only [List.set_cons_succ, List.getD_cons_succ]
        exact ih m n c d (fun he => hkj (by rw [he]))

theorem celula_mem (t : TabelaAberta) (i : Nat) (h : i < t.tabela.length) :
    t.celula i ∈ t.tabela := by
  unfold TabelaAberta.celula
  rw [List.getD_eq_getElem t.tabela Celula.nova h]
  exact List.getElem_mem h

theorem celula_eq_ocupada {c : Celula} {v : Int}
    (h : c.estado = Estado.OCUPADO ∧ c.valor = v) :
    c = { valor := v, estado := Estado.OCUPADO } := by
  cases c
  simp_all

theorem nao_disponivel_ocupada {c : Celula} (h : ¬ c.disponivelParaInsercao) :
    c.estado = Estado.OCUPADO := by
  unfold Celula.disponivelParaInsercao at h
  push_neg at h
  cases he : c.estado
  · exact absurd he h.1
  · rfl
  · exact absurd he h.2

theorem sondagemAux_zero (t : TabelaAberta) (v : Int) (p : Bool) (i : Nat) :
    sondagemLinearAux t v p i 0 = t.tamanho := rfl

theorem sondagemAux_insercao_succ (t : TabelaAberta) (v : Int) (i n : Nat) :
    sondagemLinearAux t v true i (n + 1) =
      if (t.celula i).disponivelParaInsercao then i
      else if (t.celula i).estado = Estado.OCUPADO ∧ (t.celula i).valor = v then i
      else sondagemLinearAux t v true ((i + 1) % t.tamanho) n := by
  rw [sondagemLinearAux]
  simp

theorem sondagemAux_busca_succ (t : TabelaAberta) (v : Int) (i n : Nat) :
    sondagemLinearAux t v false i (n + 1) =
      if (t.celula i).estado = Estado.VAZIO then t.tamanho
      else if (t.celula i).estado = Estado.OCUPADO ∧ (t.celula i).valor = v then i
      else sondagemLinearAux t v false ((i + 1) % t.tamanho) n := by
  rw [sondagemLinearAux]
  simp

/-- The insertion probe only stops, below the capacity, at an available cell
or at an Occupied cell holding the probed value. -/
theorem sondagem_insercao_destino (t : TabelaAberta) (v : Int) :
    ∀ (fuel i j : Nat), sondagemLinearAux t v true i fuel = j → j < t.tamanho →
      (t.celula j).disponivelParaInsercao ∨
        ((t.celula j).estado = Estado.OCUPADO ∧ (t.celula j).valor = v) := by
  intro fuel
  induction fuel with
  | zero =>
    intro i j hj hlt
    rw [sondagemAux_zero] at hj
    omega
  | succ n ih =>
    intro i j hj hlt
    rw [sondagemAux_insercao_succ] at hj
    split_ifs at hj with h1 h2
    · exact hj ▸ Or.inl h1
    · exact hj ▸ Or.inr h2
    · exact ih _ j hj hlt

/-- The search probe only stops, below the capacity, at an Occupied cell
holding the probed value. -/
theorem sondagem_busca_destino (t : TabelaAberta) (v : Int) :
    ∀ (fuel i j : Nat), sondagemLinearAux t v false i fuel = j → j < t.tamanho →
      (t.celula j).estado = Estado.OCUPADO ∧ (t.celula j).valor = v := by
  intro fuel
  induction fuel with
  | zero =>
    intro i j hj hlt
    rw [sondagemAux_zero] at hj
    omega
  | succ n ih =>
    intro i j hj hlt
    rw [sondagemAux_busca_succ] at hj
    split_ifs at hj with h1 h2
    · omega
    · exact hj ▸ h2
    · exact ih _ j hj hlt

/-- When the insertion probe stops at a VAZIO cell, the search probe for the
same value from the same start misses. -/
theorem sondagem_insercao_vazio_busca_falha (t : TabelaAberta) (v : Int) :
    ∀ (fuel i j : Nat), sondagemLinearAux t v true i fuel = j →
      (t.celula j).estado = Estado.VAZIO →
      sondagemLinearAux t v false i fuel = t.tamanho := by
  intro fuel
  induction fuel with
  | zero => intro i j _ _; rw [sondagemAux_zero]
  | succ n ih =>
    intro i j hj hvaz
    rw [sondagemAux_insercao_succ] at hj
    rw [sondagemAux_busca_succ]
    split_ifs at hj with h1 h2
    · subst hj
      rw [if_pos hvaz]
    · subst hj
      rw [h2.1] at hvaz
      exact absurd hvaz (by simp)
    · have hocc := nao_disponivel_ocupada h1
      rw [if_neg (by rw [hocc]; simp), if_neg h2]
      exact ih _ j hj hvaz

/-- After writing `⟨v, OCUPADO⟩` at the index where the insertion probe
stopped, the search probe for `v` from the same start succeeds. -/
theorem busca_encontra (t t' : TabelaAberta) (v : Int) (j : Nat)
    (htam : t'.tamanho = t.tamanho)
    (hj : t'.celula j = { valor := v, estado := Estado.OCUPADO })
    (houtro : ∀ k, k ≠ j → t'.celula k = t.celula k) :
    ∀ (fuel i : Nat), sondagemLinearAux t v true i fuel = j → j < t.tamanho →
      sondagemLinearAux t' v false i fuel < t'.tamanho := by
  intro fuel
  induction fuel with
  | zero =>
    intro i hins hlt
    rw [sondagemAux_zero] at hins
    omega
  | succ n ih =>
    intro i hins hlt
    rw [sondagemAux_busca_succ]
    by_cases hij : i = j
    · subst hij
      rw [hj]
      simp only
      rw [if_neg (by simp), if_pos (by simp)]
      omega
    · have hcel : t'.celula i = t.celula i := houtro i hij
      rw [sondagemAux_insercao_succ] at hins
      split_ifs at hins with h1 h2
      · exact absurd hins hij
      · exact absurd hins hij
      · have hocc := nao_disponivel_ocupada h1
        rw [hcel, if_neg (by rw [hocc]; simp), if_neg h2, htam]
        have hrec := ih ((i + 1) % t.tamanho) hins hlt
        rw [htam] at hrec
        exact hrec

/-- A successful search is unaffected by changes confined to cells that were
VAZIO (the probe never reaches them). -/
theorem busca_preservada (t t' : TabelaAberta) (v : Int)
    (htam : t'.tamanho = t.tamanho)
    (hcel : ∀ k, (t.celula k).estado ≠ Estado.VAZIO → t'.celula k = t.celula k) :
    ∀ (fuel i j : Nat), sondagemLinearAux t v false i fuel = j → j < t.tamanho →
      sondagemLinearAux t' v false i fuel = j := by
  intro fuel
  induction fuel with
  | zero =>
    intro i j hb hlt
    rw [sondagemAux_zero] at hb
    omega
  | succ n ih =>
    intro i j hb hlt
    rw [sondagemAux_busca_succ] at hb
    rw [sondagemAux_busca_succ]
    split_ifs at hb with h1 h2
    · omega
    · rw [hcel i h1, if_neg h1, if_pos h2]
      exact hb
    · rw [hcel i h1, if_neg h1, if_neg h2, htam]
      exact ih _ j hb hlt

/-- In a table without tombstones, the insertion probe stops exactly where a
successful search probe stops. -/
theorem insercao_segue_busca (t : TabelaAberta) (v : Int)
    (hsem : ∀ c ∈ t.tabela, c.estado ≠ Estado.REMOVIDO)
    (hlen : t.tabela.length = t.tamanho) :
    ∀ (fuel i j : Nat), i < t.tamanho → sondagemLinearAux t v false i fuel = j →
      j < t.tamanho → sondagemLinearAux t v true i fuel = j := by
  intro fuel
  induction fuel with
  | zero =>
    intro i j _ hb hlt
    rw [sondagemAux_zero] at hb
    omega
  | succ n ih =>
    intro i j hi hb hlt
    have hmem : t.celula i ∈ t.tabela := celula_mem t i (by omega)
    have hrem : (t.celula i).estado ≠ Estado.REMOVIDO := hsem _ hmem
    rw [sondagemAux_busca_succ] at hb
    rw [sondagemAux_insercao_succ]
    split_ifs at hb with h1 h2
    · omega
    · rw [if_neg (by unfold Celula.disponivelParaInsercao; push_neg; exact ⟨h1, hrem⟩),
        if_pos h2]
      exact hb
    · rw [if_neg (by unfold Celula.disponivelParaInsercao; push_neg; exact ⟨h1, hrem⟩),
        if_neg h2]
      exact ih _ j (Nat.mod_lt _ (by omega)) hb hlt

/-- Every reachable open-table state keeps its cell-array length equal to its
capacity, and the capacity positive. -/
theorem reachOpen_wf : ∀ t : TabelaAberta, ReachOpen t →
    t.tabela.length = t.tamanho ∧ 0 < t.tamanho := by
  intro t h
  induction h with
  | nova m hm => simpa [TabelaAberta.nova] using hm
  | inserir t v i t' _ hi hok ih =>
    unfold TabelaAberta.inserir at hok
    simp only [] at hok
    split_ifs at hok with h1 h2 h3 h4
    · injection hok with hok
      subst hok
      exact ih
    · injection hok with hok
      subst hok
      simpa [List.length_set] using ih
    · injection hok with hok
      subst hok
      simpa [List.length_set] using ih
  | remover t v i _ hi ih =>
    unfold TabelaAberta.remover
    simp only []
    split_ifs with h1 h2
    · simpa using ih
    · simpa [List.length_set] using ih
    · simpa using ih
  | limpar t _ ih =>
    unfold TabelaAberta.limpar
    simpa using ih

/-- Every reachable chained-table state keeps its bucket-array length equal
to its capacity, and the capacity positive. -/
theorem reachEnc_wf : ∀ t : TabelaEncadeada, ReachEnc t →
    t.tabela.length = t.tamanho ∧ 0 < t.tamanho := by
  intro t h
  induction h with
  | nova m hm => simpa [TabelaEncadeada.nova] using hm
  | inserir t v i _ hi ih =>
    unfold TabelaEncadeada.inserir
    split_ifs
    · exact ih
    · simpa using ih
  | remover t v i _ hi ih =>
    unfold TabelaEncadeada.remover
    simp only []
    split_ifs
    · simpa [List.length_set] using ih
    · simpa using ih
  | limpar t _ ih =>
    unfold TabelaEncadeada.limpar
    simpa using ih

/-- Claim C3: whenever `inserir` on the open table fails by throwing — either
threshold exceeded, or linear probing inspected every cell without finding a
slot — the table is left exactly as it was (the error carries the state at
the throw, and both throws precede every mutation); in particular a table
whose `fatorCarga` equals the high-water mark `MAX_FATOR_CARGA = 0.7` always
rejects the insertion unchanged (its occupancy factor then necessarily
exceeds the stricter 0.5 threshold). -/
theorem claim_C3 : ∀ (t : TabelaAberta) (valor : Int) (i : Nat),
    (∀ (msg : String) (t' : TabelaAberta),
      t.inserir valor i = Except.error (msg, t') → t' = t) ∧
    (t.fatorCarga = MAX_FATOR_CARGA →
      t.inserir valor i =
        Except.error ("Fator de carga muito alto - rehash necessário", t)) := by
  intro t valor i
  constructor
  · intro msg t' herr
    unfold TabelaAberta.inserir at herr
    simp only [] at herr
    split_ifs at herr with h1 h2 h3
    · injection herr with h
      exact congrArg Prod.snd h.symm
    · injection herr with h
      exact congrArg Prod.snd h.symm
  · intro hcarga
    have hm : (0 : ℚ) < (t.tamanho : ℚ) := by
      by_contra hle
      push_neg at hle
      have hz : (t.tamanho : ℚ) = 0 := le_antisymm hle (by positivity)
      rw [TabelaAberta.fatorCarga, hz, div_zero, MAX_FATOR_CARGA] at hcarga
      norm_num at hcarga
    have hge : t.fatorCarga ≤ t.fatorOcupacao := by
      unfold TabelaAberta.fatorCarga TabelaAberta.fatorOcupacao
      rw [div_le_div_iff₀ hm hm]
      have hr : (t.numElementos : ℚ) ≤ (t.numElementos : ℚ) + (t.numRemovidos : ℚ) :=
        le_add_of_nonneg_right (by positivity)
      exact mul_le_mul_of_nonneg_right hr hm.le
    have hocc : t.fatorOcupacao > LIMITE_REHASH_REMOVIDOS := by
      have hlim : LIMITE_REHASH_REMOVIDOS < MAX_FATOR_CARGA := by
        rw [LIMITE_REHASH_REMOVIDOS, MAX_FATOR_CARGA]
        norm_num
      calc LIMITE_REHASH_REMOVIDOS < MAX_FATOR_CARGA := hlim
        _ = t.fatorCarga := hcarga.symm
        _ ≤ t.fatorOcupacao := hge
    have hp : t.precisaRehash := Or.inr hocc
    unfold TabelaAberta.inserir
    rw [if_pos hp]

/-- Witness for claim C3 at a concrete table with load factor exactly 0.7:
the insertion fails with the rehash error and the carried state is the input
table. -/
theorem claim_C3_witness :
    tabelaCarga07.inserir 42 0 =
      Except.error ("Fator de carga muito alto - rehash necessário", tabelaCarga07) :=
  (claim_C3 tabelaCarga07 42 0).2 (by
    simp [tabelaCarga07, TabelaAberta.fatorCarga, MAX_FATOR_CARGA])

/-- Claim C9: for every key of either sign and every positive capacity, the
division-method hash of both tables equals `abs(key) mod capacity` and lands
in `[0, capacity)`; it is a pure function of the key and the capacity by
construction. -/
theorem claim_C9 : ∀ (chave : Int) (tA : TabelaAberta) (tE : TabelaEncadeada),
    0 < tA.tamanho → 0 < tE.tamanho →
    tA.calcularHashDivisao chave = chave.natAbs % tA.tamanho ∧
    tE.calcularHashDivisao chave = chave.natAbs % tE.tamanho ∧
    tA.calcularHashDivisao chave < tA.tamanho ∧
    tE.calcularHashDivisao chave < tE.tamanho := by
  intro chave tA tE hA hE
  exact ⟨rfl, rfl, Nat.mod_lt _ hA, Nat.mod_lt _ hE⟩

/-- Witness for claim C9 at a negative key and concrete capacities 5 and 7. -/
theorem claim_C9_witness :
    (TabelaAberta.nova 5).calcularHashDivisao (-13) = Int.natAbs (-13) % (TabelaAberta.nova 5).tamanho ∧
    (TabelaEncadeada.nova 7).calcularHashDivisao (-13) = Int.natAbs (-13) % (TabelaEncadeada.nova 7).tamanho ∧
    (TabelaAberta.nova 5).calcularHashDivisao (-13) < (TabelaAberta.nova 5).tamanho ∧
    (TabelaEncadeada.nova 7).calcularHashDivisao (-13) < (TabelaEncadeada.nova 7).tamanho :=
  claim_C9 (-13) (TabelaAberta.nova 5) (TabelaEncadeada.nova 7) (by decide) (by decide)

theorem sondagemLinearPassos_le (t : TabelaAberta) (v : Int) (p : Bool) :
    ∀ (fuel i : Nat), sondagemLinearPassos t v p i fuel ≤ fuel := by
  intro fuel
  induction fuel with
  | zero => intro i; rw [sondagemLinearPassos]
  | succ n ih =>
    intro i
    rw [sondagemLinearPassos]
    have := ih ((i + 1) % t.tamanho)
    split_ifs <;> omega

/-- Claim C10: for every open-table state, every key and both probe modes,
the linear-probing loop inspects at most `tamanho` cells before returning
(`sondagemLinear` runs the loop with exactly that iteration budget, so
`buscar`, `inserir` and `remover` all terminate within `tamanho` probe
steps). -/
theorem claim_C10 : ∀ (t : TabelaAberta) (valor : Int) (paraInsercao : Bool) (i : Nat),
    sondagemLinearPassos t valor paraInsercao i t.tamanho ≤ t.tamanho ∧
    t.sondagemLinear i valor paraInsercao = sondagemLinearAux t valor paraInsercao i t.tamanho := by
  intro t valor p i
  exact ⟨sondagemLinearPassos_le t valor p t.tamanho i, rfl⟩

theorem foldl_passo_colisoes : ∀ (l : List (List Int)) (acc : AcumuladorEstatisticas),
    (l.foldl passoEstatisticas acc).colisoes =
      acc.colisoes + (l.map fun s => s.length - 1).sum := by
  intro l
  induction l with
  | nil => intro acc; simp
  | cons a resto ih =>
    intro acc
    rw [List.foldl_cons, ih]
    unfold passoEstatisticas
    simp only []
    split_ifs with h1 h2 <;> simp <;> omega

theorem foldl_passo_naoVazias : ∀ (l : List (List Int)) (acc : AcumuladorEstatisticas),
    (l.foldl passoEstatisticas acc).naoVazias =
      acc.naoVazias + (l.filter fun s => decide (s.length ≠ 0)).length := by
  intro l
  induction l with
  | nil => intro acc; simp
  | cons a resto ih =>
    intro acc
    rw [List.foldl_cons, ih]
    unfold passoEstatisticas
    simp only []
    split_ifs with h1 h2
    · have ha : a = [] := by simpa using h1
      subst ha
      simp
    · have ha : ¬(a = []) := by simpa using h1
      simp [List.filter_cons, ha]
      omega
    · have ha : ¬(a = []) := by simpa using h1
      simp [List.filter_cons, ha]
      omega

theorem foldl_passo_soma : ∀ (l : List (List Int)) (acc : AcumuladorEstatisticas),
    (l.foldl passoEstatisticas acc).somaComprimentos =
      acc.somaComprimentos + (l.map List.length).sum := by
  intro l
  induction l with
  | nil => intro acc; simp
  | cons a resto ih =>
    intro acc
    rw [List.foldl_cons, ih]
    unfold passoEstatisticas
    simp only []
    split_ifs with h1 <;> simp [h1] <;> omega

/-- Claim C6: for the chained table in any state, `obterEstatisticas` reports
`totalColisoes` equal to the sum over all buckets of `chain length - 1`
(truncated at zero); in particular it is 0 whenever every bucket has length
at most 1, and the reported mean chain length divides the total length by
the number of non-empty buckets only. -/
theorem claim_C6 : ∀ t : TabelaEncadeada,
    t.obterEstatisticas.totalColisoes = (t.tabela.map fun s => s.length - 1).sum ∧
    ((∀ s ∈ t.tabela, s.length ≤ 1) → t.obterEstatisticas.totalColisoes = 0) ∧
    (0 < (t.tabela.filter fun s => decide (s.length ≠ 0)).length →
      t.obterEstatisticas.comprimentoMedio =
        ((t.tabela.map List.length).sum : ℚ) /
          ((t.tabela.filter fun s => decide (s.length ≠ 0)).length : ℚ)) := by
  intro t
  have hcol : t.obterEstatisticas.totalColisoes = (t.tabela.map fun s => s.length - 1).sum := by
    unfold TabelaEncadeada.obterEstatisticas
    simp only []
    rw [foldl_passo_colisoes]
    simp
  refine ⟨hcol, ?_, ?_⟩
  · intro hcurto
    rw [hcol]
    apply List.sum_eq_zero
    intro x hx
    obtain ⟨s, hs, hsx⟩ := List.mem_map.1 hx
    have := hcurto s hs
    omega
  · intro hpos
    unfold TabelaEncadeada.obterEstatisticas
    simp only []
    rw [foldl_passo_naoVazias, foldl_passo_soma]
    simp only [Nat.zero_add]
    rw [if_pos (by simpa using hpos)]

/-- Witness for claim C6: the two hypothesised parts discharged on concrete
tables (an empty capacity-3 table for the all-short case, the populated
`tabelaC8` for the mean over its one non-empty bucket). -/
theorem claim_C6_witness :
    (TabelaEncadeada.nova 3).obterEstatisticas.totalColisoes = 0 ∧
    tabelaC8.obterEstatisticas.comprimentoMedio =
      ((tabelaC8.tabela.map List.length).sum : ℚ) /
        ((tabelaC8.tabela.filter fun s => decide (s.length ≠ 0)).length : ℚ) :=
  ⟨(claim_C6 (TabelaEncadeada.nova 3)).2.1 (by decide),
   (claim_C6 tabelaC8).2.2 (by decide)⟩

theorem buscaLista_cabeca (v : Int) (l : List Int) : buscaLista (v :: l) v = true := by
  rw [buscaLista]
  simp

/-- Claim C5: for every table variant, every reachable state, every key and
every in-range initial index (as produced by either hash kind), an `inserir`
that completes without failure is immediately observable: `buscar` with the
same key and index returns found. -/
theorem claim_C5 :
    (∀ t : TabelaAberta, ReachOpen t → ∀ (v : Int) (i : Nat) (t' : TabelaAberta),
      i < t.tamanho → t.inserir v i = Except.ok t' → t'.buscar v i = true) ∧
    (∀ t : TabelaEncadeada, ReachEnc t → ∀ (v : Int) (i : Nat),
      i < t.tamanho → (t.inserir v i).buscar v i = true) := by
  constructor
  · intro t hreach v i t' hi hok
    obtain ⟨hlen, hpos⟩ := reachOpen_wf t hreach
    unfold TabelaAberta.inserir at hok
    simp only [] at hok
    split_ifs at hok with h1 h2 h3 h4
    all_goals injection hok with hok
    · -- duplicate: the probe index already holds ⟨v, OCUPADO⟩, nothing changes
      have htam : t'.tamanho = t.tamanho := by rw [← hok]
      have hcelj : t'.celula (t.sondagemLinear i v true) =
          { valor := v, estado := Estado.OCUPADO } := by
        rw [← hok]
        exact celula_eq_ocupada h3
      have houtro : ∀ k, k ≠ t.sondagemLinear i v true → t'.celula k = t.celula k := by
        intro k _
        rw [← hok]
      have hins : sondagemLinearAux t v true i t'.tamanho = t.sondagemLinear i v true := by
        rw [htam]
        rfl
      have hfound := busca_encontra t t' v (t.sondagemLinear i v true) htam hcelj houtro
        t'.tamanho i hins (by omega)
      unfold TabelaAberta.buscar
      exact decide_eq_true hfound
    · -- the probe index was a tombstone: the cell is overwritten with ⟨v, OCUPADO⟩
      have htam : t'.tamanho = t.tamanho := by rw [← hok]
      have hcelj : t'.celula (t.sondagemLinear i v true) =
          { valor := v, estado := Estado.OCUPADO } := by
        rw [← hok]
        show (t.tabela.set (t.sondagemLinear i v true) _).getD _ Celula.nova = _
        exact getD_set_mesmo t.tabela _ _ Celula.nova (by omega)
      have houtro : ∀ k, k ≠ t.sondagemLinear i v true → t'.celula k = t.celula k := by
        intro k hk
        rw [← hok]
        show (t.tabela.set (t.sondagemLinear i v true) _).getD _ Celula.nova = _
        exact getD_set_outro t.tabela _ k _ Celula.nova hk
      have hins : sondagemLinearAux t v true i t'.tamanho = t.sondagemLinear i v true := by
        rw [htam]
        rfl
      have hfound := busca_encontra t t' v (t.sondagemLinear i v true) htam hcelj houtro
        t'.tamanho i hins (by omega)
      unfold TabelaAberta.buscar
      exact decide_eq_true hfound
    · -- the probe index was VAZIO: same overwrite
      have htam : t'.tamanho = t.tamanho := by rw [← hok]
      have hcelj : t'.celula (t.sondagemLinear i v true) =
          { valor := v, estado := Estado.OCUPADO } := by
        rw [← hok]
        show (t.tabela.set (t.sondagemLinear i v true) _).getD _ Celula.nova = _
        exact getD_set_mesmo t.tabela _ _ Celula.nova (by omega)
      have houtro : ∀ k, k ≠ t.sondagemLinear i v true → t'.celula k = t.celula k := by
        intro k hk
        rw [← hok]
        show (t.tabela.set (t.sondagemLinear i v true) _).getD _ Celula.nova = _
        exact getD_set_outro t.tabela _ k _ Celula.nova hk
      have hins : sondagemLinearAux t v true i t'.tamanho = t.sondagemLinear i v true := by
        rw [htam]
        rfl
      have hfound := busca_encontra t t' v (t.sondagemLinear i v true) htam hcelj houtro
        t'.tamanho i hins (by omega)
      unfold TabelaAberta.buscar
      exact decide_eq_true hfound
  · intro t hreach v i hi
    obtain ⟨hlen, hpos⟩ := reachEnc_wf t hreach
    unfold TabelaEncadeada.inserir
    split_ifs with h1
    · exact h1
    · unfold TabelaEncadeada.buscar TabelaEncadeada.lista
      simp only []
      rw [getD_set_mesmo t.tabela i _ [] (by omega)]
      exact buscaLista_cabeca v (t.lista i)

/-- Witness for claim C5: inserting key 3 at its division-hash index 3 into
an empty capacity-5 table of each variant, then searching for it. -/
theorem claim_C5_witness :
    ((TabelaAberta.nova 5).inserir 3 3 = Except.ok tabelaC5 ∧
      tabelaC5.buscar 3 3 = true) ∧
    ((TabelaEncadeada.nova 5).inserir 3 3).buscar 3 3 = true :=
  ⟨⟨by rfl,
    claim_C5.1 (TabelaAberta.nova 5) (ReachOpen.nova 5 (by decide)) 3 3 tabelaC5
      (by decide) (by rfl)⟩,
   claim_C5.2 (TabelaEncadeada.nova 5) (ReachEnc.nova 5 (by decide)) 3 3 (by decide)⟩

theorem buscaLista_cons_de (x w : Int) (l : List Int) (hl : buscaLista l w = true) :
    buscaLista (x :: l) w = true := by
  rw [buscaLista]
  split_ifs
  · rfl
  · exact hl

theorem invEnc_nova (m : Nat) (h : Int → Nat) : InvEnc m h [] (TabelaEncadeada.nova m) := by
  refine ⟨rfl, by simp [TabelaEncadeada.nova], ?_, ?_⟩
  · intro v hv
    simp at hv
  · simp [TabelaEncadeada.nova]

theorem invEnc_passo (m : Nat) (h : Int → Nat) (ks : List Int) (t : TabelaEncadeada)
    (v : Int) (hh : ∀ w, h w < m) (inv : InvEnc m h ks t) :
    InvEnc m h (ks ++ [v]) (t.inserir v (h v)) := by
  have hlenv : h v < t.tabela.length := by rw [inv.len]; exact hh v
  unfold TabelaEncadeada.inserir
  by_cases hb : t.buscar v (h v) = true
  · rw [if_pos hb]
    refine ⟨inv.tam, inv.len, ?_, ?_⟩
    · intro w hw
      rcases List.mem_append.1 hw with hw | hw
      · exact inv.achaTodos w hw
      · have : w = v := by simpa using hw
        exact this ▸ hb
    · refine le_trans inv.conta (Finset.card_le_card ?_)
      intro x hx
      rw [List.mem_toFinset] at hx ⊢
      exact List.mem_append_left _ hx
  · rw [if_neg hb]
    have hvnotin : v ∉ ks := fun hv => hb (inv.achaTodos v hv)
    refine ⟨inv.tam, by simpa using inv.len, ?_, ?_⟩
    · intro w hw
      unfold TabelaEncadeada.buscar TabelaEncadeada.lista
      simp only []
      rcases List.mem_append.1 hw with hw | hw
      · by_cases hiw : h w = h v
        · rw [hiw, getD_set_mesmo t.tabela (h v) _ [] hlenv]
          have := inv.achaTodos w hw
          unfold TabelaEncadeada.buscar TabelaEncadeada.lista at this
          rw [hiw] at this
          exact buscaLista_cons_de v w _ this
        · rw [getD_set_outro t.tabela (h v) (h w) _ [] hiw]
          exact inv.achaTodos w hw
      · have hwv : w = v := by simpa using hw
        subst hwv
        rw [getD_set_mesmo t.tabela (h w) _ [] hlenv]
        exact buscaLista_cabeca w (t.lista (h w))
    · have hcard : (ks ++ [v]).toFinset.card = ks.toFinset.card + 1 := by
        rw [List.toFinset_append]
        simp only [List.toFinset_cons, List.toFinset_nil, insert_emptyc_eq]
        rw [Finset.union_comm, ← Finset.insert_eq]
        exact Finset.card_insert_of_not_mem (by simpa using hvnotin)
      simp only []
      rw [hcard]
      exact Nat.succ_le_succ inv.conta

theorem invEnc_run (m : Nat) (h : Int → Nat) (hh : ∀ w, h w < m) :
    ∀ (keys ks : List Int) (t : TabelaEncadeada), InvEnc m h ks t →
      InvEnc m h (ks ++ keys) (keys.foldl (fun t w => t.inserir w (h w)) t) := by
  intro keys
  induction keys with
  | nil => intro ks t inv; simpa using inv
  | cons v resto ih =>
    intro ks t inv
    have h1 := invEnc_passo m h ks t v hh inv
    have h2 := ih (ks ++ [v]) _ h1
    rw [List.foldl_cons]
    simpa [List.append_assoc] using h2

theorem invEnc_insertRun (m : Nat) (h : Int → Nat) (keys : List Int) (hh : ∀ w, h w < m) :
    InvEnc m h keys (insertRunEnc m h keys) := by
  have := invEnc_run m h hh keys [] (TabelaEncadeada.nova m) (invEnc_nova m h)
  simpa [insertRunEnc] using this

theorem valoresLista_cons (c : Celula) (l : List Celula) :
    valoresLista (c :: l) =
      if c.estado = Estado.OCUPADO then c.valor :: valoresLista l else valoresLista l := by
  unfold valoresLista
  by_cases hc : c.estado = Estado.OCUPADO
  · rw [if_pos hc]
    simp [List.filter_cons, hc]
  · rw [if_neg hc]
    simp [List.filter_cons, hc]

theorem mem_valoresLista (l : List Celula) (w : Int) :
    w ∈ valoresLista l ↔ ∃ c, c ∈ l ∧ c.estado = Estado.OCUPADO ∧ c.valor = w := by
  unfold valoresLista
  simp only [List.mem_map, List.mem_filter, decide_eq_true_eq]
  constructor
  · rintro ⟨c, ⟨hc, hocc⟩, hval⟩
    exact ⟨c, hc, hocc, hval⟩
  · rintro ⟨c, hc, hocc, hval⟩
    exact ⟨c, ⟨hc, hocc⟩, hval⟩

theorem valoresLista_set_vazio :
    ∀ (l : List Celula) (j : Nat) (v : Int), j < l.length →
      (l.getD j Celula.nova).estado = Estado.VAZIO →
      ∃ l1 l2, valoresLista l = l1 ++ l2 ∧
        valoresLista (l.set j { valor := v, estado := Estado.OCUPADO }) = l1 ++ v :: l2 := by
  intro l
  induction l with
  | nil => intro j v hj _; simp at hj
  | cons c resto ih =>
    intro j v hj hvaz
    cases j with
    | zero =>
      refine ⟨[], valoresLista resto, ?_, ?_⟩
      · rw [valoresLista_cons, if_neg (by rw [show c.estado = Estado.VAZIO from hvaz]; simp)]
        simp
      · rw [List.set_cons_zero, valoresLista_cons, if_pos rfl]
        simp
    | succ n =>
      have hj' : n < resto.length := by simpa using hj
      have hvaz' : (resto.getD n Celula.nova).estado = Estado.VAZIO := by
        simpa using hvaz
      obtain ⟨l1, l2, he1, he2⟩ := ih n v hj' hvaz'
      by_cases hc : c.estado = Estado.OCUPADO
      · refine ⟨c.valor :: l1, l2, ?_, ?_⟩
        · rw [valoresLista_cons, if_pos hc, he1]
          simp
        · rw [List.set_cons_succ, valoresLista_cons, if_pos hc, he2]
          simp
      · refine ⟨l1, l2, ?_, ?_⟩
        · rw [valoresLista_cons, if_neg hc]
          exact he1
        · rw [List.set_cons_succ, valoresLista_cons, if_neg hc]
          exact he2

theorem valoresLista_replicate_nova (m : Nat) :
    valoresLista (List.replicate m Celula.nova) = [] := by
  induction m with
  | zero => rfl
  | succ n ih =>
    rw [List.replicate_succ, valoresLista_cons,
      if_neg (by rw [show Celula.nova.estado = Estado.VAZIO from rfl]; simp)]
    exact ih

theorem invOpen_nova (m : Nat) (h : Int → Nat) : InvOpen m h [] (TabelaAberta.nova m) := by
  refine ⟨rfl, by simp [TabelaAberta.nova], ?_, ?_, ?_, ?_, ?_⟩
  · intro c hc
    rw [show (TabelaAberta.nova m).tabela = List.replicate m Celula.nova from rfl] at hc
    rw [List.eq_of_mem_replicate hc]
    simp [Celula.nova]
  · intro c hc hocc
    rw [show (TabelaAberta.nova m).tabela = List.replicate m Celula.nova from rfl] at hc
    rw [List.eq_of_mem_replicate hc] at hocc
    exact absurd hocc (by simp [Celula.nova])
  · intro c hc hocc
    rw [show (TabelaAberta.nova m).tabela = List.replicate m Celula.nova from rfl] at hc
    rw [List.eq_of_mem_replicate hc] at hocc
    exact absurd hocc (by simp [Celula.nova])
  · show (0 : Nat) = (valoresOcupados (TabelaAberta.nova m)).length
    unfold valoresOcupados
    rw [show (TabelaAberta.nova m).tabela = List.replicate m Celula.nova from rfl,
      valoresLista_replicate_nova]
    rfl
  · unfold valoresOcupados
    rw [show (TabelaAberta.nova m).tabela = List.replicate m Celula.nova from rfl,
      valoresLista_replicate_nova]
    exact List.nodup_nil

theorem invOpen_mono (m : Nat) (h : Int → Nat) (ks ks' : List Int) (t : TabelaAberta)
    (hsub : ∀ w ∈ ks, w ∈ ks') (inv : InvOpen m h ks t) : InvOpen m h ks' t :=
  ⟨inv.tam, inv.len, inv.semRemovidos, inv.achaTodos,
   fun c hc hocc => hsub _ (inv.inseridos c hc hocc), inv.contagem, inv.semDuplicatas⟩

/-- Both throws of `inserir` happen before any mutation: the state carried by
the error is the input table. -/
theorem inserir_erro_inalterado (t : TabelaAberta) (valor : Int) (i : Nat)
    (msg : String) (t' : TabelaAberta)
    (herr : t.inserir valor i = Except.error (msg, t')) : t' = t := by
  unfold TabelaAberta.inserir at herr
  simp only [] at herr
  split_ifs at herr with h1 h2 h3
  · injection herr with h
    exact congrArg Prod.snd h.symm
  · injection herr with h
    exact congrArg Prod.snd h.symm

theorem invOpen_passo (m : Nat) (h : Int → Nat) (ks : List Int) (t : TabelaAberta)
    (v : Int) (_hh : ∀ w, h w < m) (inv : InvOpen m h ks t) :
    InvOpen m h (ks ++ [v]) (t.inserirE v (h v)) := by
  have hmono : ∀ w ∈ ks, w ∈ ks ++ [v] := fun w hw => List.mem_append_left _ hw
  unfold TabelaAberta.inserirE
  cases hcall : t.inserir v (h v) with
  | error e =>
    obtain ⟨msg, t2⟩ := e
    rw [inserir_erro_inalterado t v (h v) msg t2 hcall]
    exact invOpen_mono m h ks _ t hmono inv
  | ok t' =>
    unfold TabelaAberta.inserir at hcall
    simp only [] at hcall
    split_ifs at hcall with h1 h2 h3 h4
    · -- duplicate: unchanged table
      injection hcall with hq
      subst hq
      exact invOpen_mono m h ks _ t hmono inv
    · -- tombstone target: impossible, the insert-only invariant has no tombstones
      exact absurd h4 (inv.semRemovidos _ (celula_mem t _ (by
        rw [inv.len, ← inv.tam]
        omega)))
    · -- VAZIO target: the cell is overwritten with ⟨v, OCUPADO⟩
      injection hcall with hrec
      set j := t.sondagemLinear (h v) v true with hjdef
      have hjlt : j < t.tamanho := by omega
      have hjlen : j < t.tabela.length := by rw [inv.len, ← inv.tam]; omega
      have hvaz : (t.celula j).estado = Estado.VAZIO := by
        rcases sondagem_insercao_destino t v t.tamanho (h v) j (by rw [hjdef]; rfl) hjlt with
          hdisp | hdup
        · rcases hdisp with hv | hr
          · exact hv
          · exact absurd hr h4
        · exact absurd hdup h3
      have htam : t'.tamanho = t.tamanho := by rw [← hrec]
      have htab : t'.tabela = t.tabela.set j { valor := v, estado := Estado.OCUPADO } := by
        rw [← hrec]
      have hnum : t'.numElementos = t.numElementos + 1 := by rw [← hrec]
      have hcelhyp : ∀ k, (t.celula k).estado ≠ Estado.VAZIO → t'.celula k = t.celula k := by
        intro k hk
        by_cases hkj : k = j
        · exact absurd (hkj ▸ hk) (by simp [hvaz])
        · unfold TabelaAberta.celula
          rw [htab]
          exact getD_set_outro t.tabela j k _ Celula.nova hkj
      have hcelj : t'.celula j = { valor := v, estado := Estado.OCUPADO } := by
        unfold TabelaAberta.celula
        rw [htab]
        exact getD_set_mesmo t.tabela j _ Celula.nova hjlen
      have houtro : ∀ k, k ≠ j → t'.celula k = t.celula k := by
        intro k hk
        unfold TabelaAberta.celula
        rw [htab]
        exact getD_set_outro t.tabela j k _ Celula.nova hk
      have hbuscaV : t'.buscar v (h v) = true := by
        have hins : sondagemLinearAux t v true (h v) t'.tamanho = j := by
          rw [htam, hjdef]
          rfl
        have hfound := busca_encontra t t' v j htam hcelj houtro t'.tamanho (h v) hins hjlt
        unfold TabelaAberta.buscar
        exact decide_eq_true hfound
      have hbuscaOld : ∀ w : Int, t.buscar w (h w) = true → t'.buscar w (h w) = true := by
        intro w hw
        have hlt : sondagemLinearAux t w false (h w) t.tamanho < t.tamanho := by
          unfold TabelaAberta.buscar TabelaAberta.sondagemLinear at hw
          exact of_decide_eq_true hw
        have hpres := busca_preservada t t' w htam hcelhyp t.tamanho (h w) _ rfl hlt
        unfold TabelaAberta.buscar TabelaAberta.sondagemLinear
        rw [htam, hpres]
        exact decide_eq_true hlt
      have hvNaoArm : v ∉ valoresLista t.tabela := by
        intro hv
        rcases (mem_valoresLista t.tabela v).1 hv with ⟨c, hc, hocc, hval⟩
        have hbt : t.buscar c.valor (h c.valor) = true := inv.achaTodos c hc hocc
        rw [hval] at hbt
        have hmiss := sondagem_insercao_vazio_busca_falha t v t.tamanho (h v) j
          (by rw [hjdef]; rfl) hvaz
        unfold TabelaAberta.buscar TabelaAberta.sondagemLinear at hbt
        rw [hmiss] at hbt
        simp at hbt
      obtain ⟨l1, l2, hd1, hd2⟩ := valoresLista_set_vazio t.tabela j v hjlen hvaz
      refine ⟨by rw [htam]; exact inv.tam, by rw [htab, List.length_set]; exact inv.len,
        ?_, ?_, ?_, ?_, ?_⟩
      · intro c hc
        rw [htab] at hc
        rcases List.mem_or_eq_of_mem_set hc with hc | hc
        · exact inv.semRemovidos c hc
        · rw [hc]
          simp
      · intro c hc hocc
        rw [htab] at hc
        rcases List.mem_or_eq_of_mem_set hc with hc | hc
        · exact hbuscaOld c.valor (inv.achaTodos c hc hocc)
        · rw [hc]
          exact hbuscaV
      · intro c hc hocc
        rw [htab] at hc
        rcases List.mem_or_eq_of_mem_set hc with hc | hc
        · exact hmono _ (inv.inseridos c hc hocc)
        · rw [hc]
          simp
      · unfold valoresOcupados
        rw [hnum, htab, hd2]
        have := inv.contagem
        unfold valoresOcupados at this
        rw [hd1] at this
        simp only [List.length_append, List.length_cons] at this ⊢
        omega
      · unfold valoresOcupados
        rw [htab, hd2]
        refine List.nodup_middle.2 (List.nodup_cons.2 ⟨?_, ?_⟩)
        · rw [← hd1]
          exact hvNaoArm
        · rw [← hd1]
          have := inv.semDuplicatas
          unfold valoresOcupados at this
          exact this

theorem invOpen_run (m : Nat) (h : Int → Nat) (hh : ∀ w, h w < m) :
    ∀ (keys ks : List Int) (t : TabelaAberta), InvOpen m h ks t →
      InvOpen m h (ks ++ keys) (keys.foldl (fun t w => t.inserirE w (h w)) t) := by
  intro keys
  induction keys with
  | nil => intro ks t inv; simpa using inv
  | cons v resto ih =>
    intro ks t inv
    have h1 := invOpen_passo m h ks t v hh inv
    have h2 := ih (ks ++ [v]) _ h1
    rw [List.foldl_cons]
    simpa [List.append_assoc] using h2

theorem invOpen_insertRun (m : Nat) (h : Int → Nat) (keys : List Int) (hh : ∀ w, h w < m) :
    InvOpen m h keys (insertRunOpen m h keys) := by
  have := invOpen_run m h hh keys [] (TabelaAberta.nova m) (invOpen_nova m h)
  simpa [insertRunOpen] using this

/-- Claim C2: for both tables and a fixed hash function (either hash kind),
along any insert-only run from the empty table, inserting a key the table
already contains is a no-op (the state is returned unchanged), and
`numElementos` never exceeds the number of distinct keys inserted. -/
theorem claim_C2 : ∀ (m : Nat) (h : Int → Nat) (keys : List Int),
    0 < m → (∀ w, h w < m) →
    ((∀ v, (insertRunOpen m h keys).buscar v (h v) = true →
        (insertRunOpen m h keys).inserirE v (h v) = insertRunOpen m h keys) ∧
      (insertRunOpen m h keys).numElementos ≤ keys.dedup.length) ∧
    ((∀ v, (insertRunEnc m h keys).buscar v (h v) = true →
        (insertRunEnc m h keys).inserir v (h v) = insertRunEnc m h keys) ∧
      (insertRunEnc m h keys).numElementos ≤ keys.dedup.length) := by
  intro m h keys hm hh
  have invO := invOpen_insertRun m h keys hh
  have invE := invEnc_insertRun m h keys hh
  refine ⟨⟨?_, ?_⟩, ?_, ?_⟩
  · intro v hb
    have hlt : sondagemLinearAux (insertRunOpen m h keys) v false (h v)
        (insertRunOpen m h keys).tamanho < (insertRunOpen m h keys).tamanho := by
      unfold TabelaAberta.buscar TabelaAberta.sondagemLinear at hb
      exact of_decide_eq_true hb
    have hdest := sondagem_busca_destino (insertRunOpen m h keys) v
      (insertRunOpen m h keys).tamanho (h v) _ rfl hlt
    have hprobe := insercao_segue_busca (insertRunOpen m h keys) v invO.semRemovidos
      (by rw [invO.len, invO.tam]) (insertRunOpen m h keys).tamanho (h v) _
      (by rw [invO.tam]; exact hh v) rfl hlt
    unfold TabelaAberta.inserirE TabelaAberta.inserir TabelaAberta.sondagemLinear
    simp only []
    by_cases hreh : (insertRunOpen m h keys).precisaRehash
    · rw [if_pos hreh]
    · rw [if_neg hreh, hprobe, if_neg (by omega), if_pos hdest]
  · have hsub : (valoresOcupados (insertRunOpen m h keys)).toFinset ⊆ keys.toFinset := by
      intro x hx
      rw [List.mem_toFinset] at hx ⊢
      unfold valoresOcupados at hx
      rcases (mem_valoresLista _ _).1 hx with ⟨c, hc, hocc, hval⟩
      exact hval ▸ invO.inseridos c hc hocc
    rw [invO.contagem, ← List.toFinset_card_of_nodup invO.semDuplicatas,
      ← List.card_toFinset]
    exact Finset.card_le_card hsub
  · intro v hb
    unfold TabelaEncadeada.inserir
    rw [if_pos hb]
  · refine le_trans invE.conta ?_
    rw [List.card_toFinset]

/-- Witness for claim C2: capacity 5, division hash, keys 3 then 4; inserting
the already-present key 3 again is a no-op on both tables and both sizes stay
within the number of distinct keys. -/
theorem claim_C2_witness :
    (insertRunOpen 5 (fun w => w.natAbs % 5) [3, 4]).inserirE 3 ((3 : Int).natAbs % 5) =
        insertRunOpen 5 (fun w => w.natAbs % 5) [3, 4] ∧
    (insertRunOpen 5 (fun w => w.natAbs % 5) [3, 4]).numElementos ≤
        ([3, 4] : List Int).dedup.length ∧
    (insertRunEnc 5 (fun w => w.natAbs % 5) [3, 4]).inserir 3 ((3 : Int).natAbs % 5) =
        insertRunEnc 5 (fun w => w.natAbs % 5) [3, 4] ∧
    (insertRunEnc 5 (fun w => w.natAbs % 5) [3, 4]).numElementos ≤
        ([3, 4] : List Int).dedup.length := by
  have hc := claim_C2 5 (fun w => w.natAbs % 5) [3, 4] (by decide)
    (fun w => Nat.mod_lt _ (by decide))
  exact ⟨hc.1.1 3 (by decide), hc.1.2, hc.2.1 3 (by decide), hc.2.2⟩
